import Mathlib

/-!
# gifski Go binding: a shallow embedding of `gifski.go`

The binding drives a native encoder through cgo.  The native encoder and the
`go-pointer` registry are external collaborators: every call into them is
recorded as an `Event`, and the status a native call replies with is a
parameter of the operation that makes the call.  The caller's `io.Writer` is a
state machine `Writer σ`.  The unbuffered progress channel is a `Chan`.  The
engine hands a chunk to `writeCallback` as a pointer and a `size_t` length, of
which the callback receives a C `int` (`cInt`).
-/

namespace GoGifski

/-! ## Data model -/

/-- A byte of an output chunk or of a pixel buffer. -/
abbrev Byte := Fin 256

/-- ErrorCode is a gifski internal error code (`type ErrorCode int`).  The
native status is a C `int`; converting it to `ErrorCode` widens, so the value
is kept exactly and is carried as an `Int`. -/
abbrev ErrorCode := Int

/-- Ok is the success error code. -/
def Ok : ErrorCode := 0
/-- NullArg: one of input arguments was NULL. -/
def NullArg : ErrorCode := 1
/-- InvalidState: a one-time function was called twice, or functions were
called in wrong order. -/
def InvalidState : ErrorCode := 2
/-- Quant: internal error related to palette quantization. -/
def Quant : ErrorCode := 3
/-- GIF: internal error related to gif composing. -/
def GIF : ErrorCode := 4
/-- ThreadLost: internal error related to multithreading. -/
def ThreadLost : ErrorCode := 5
/-- NotFound: I/O error, file or directory not found. -/
def NotFound : ErrorCode := 6
/-- PermissionDenied: I/O error, permission denied. -/
def PermissionDenied : ErrorCode := 7
/-- AlreadyExists: I/O error, file already exists. -/
def AlreadyExists : ErrorCode := 8
/-- InvalidInput: invalid arguments passed to function. -/
def InvalidInput : ErrorCode := 9
/-- TimedOut: misc I/O error. -/
def TimedOut : ErrorCode := 10
/-- WriteZero: misc I/O error. -/
def WriteZero : ErrorCode := 11
/-- Interrupted: misc I/O error. -/
def Interrupted : ErrorCode := 12
/-- UnexpectedEOF: misc I/O error. -/
def UnexpectedEOF : ErrorCode := 13
/-- Aborted: progress callback returned 0, writing aborted. -/
def Aborted : ErrorCode := 14
/-- Other: should not happen, file a bug. -/
def Other : ErrorCode := 15

/-- Error is a gifski specific error (`type Error struct { Code ErrorCode }`). -/
structure Error where
  Code : ErrorCode
  deriving DecidableEq, Repr

/-- A value of Go's `error` interface as the binding produces it: either the
`errors.New` message of `NewGifski`, or a pointer to an `Error`. -/
inductive GoError where
  | message (text : String)
  | gifski (e : Error)
  deriving DecidableEq, Repr

/-- How a call of a Go function ends: it returns a value, it panics, or it does
not return (it blocks for ever, or the step budget of a loop ran out). -/
inductive Outcome (α : Type) where
  | ret (a : α)
  | panic
  | noReturn
  deriving DecidableEq, Repr

/-- What one `Write` call of an `io.Writer` replies: the count `n` and whether
`err != nil`. -/
structure WriteReply where
  n : Int
  err : Bool
  deriving DecidableEq, Repr

/-- The caller's sink, an `io.Writer`: a state and a `Write` method that, given
the slice offered, replies and moves to a new state.  Nothing is assumed of
the reply: the count may be zero, negative or larger than the slice. -/
structure Writer (σ : Type) where
  Write : σ → List Byte → WriteReply × σ

/-- One `Write` call made by the write loop: the value of `bytesWritten` when
it was made, the slice `data[bytesWritten:len(data)]` offered, and the reply. -/
structure WriteCall where
  offset : Int
  p : List Byte
  n : Int
  err : Bool
  deriving DecidableEq, Repr

/-- The bytes of the offered slice that the sink reports it accepted. -/
def WriteCall.accepted (c : WriteCall) : List Byte := c.p.take c.n.toNat

/-- The byte ranges accepted over a run of calls, concatenated in call order. -/
def acceptedBytes (calls : List WriteCall) : List Byte :=
  (calls.map WriteCall.accepted).flatten

/-- The unbuffered progress channel (`chan uint`): whether `close` was called
on it, and the values that readers have received from it, oldest first. -/
structure Chan where
  closed : Bool
  received : List Nat
  deriving DecidableEq, Repr

/-- Gifski abstracts the gifski API.  `handle` and `ptr` are opaque tokens,
`writer` is the state of the sink, `progress` is `none` for a nil channel. -/
structure Gifski (σ : Type) where
  handle : Nat
  ptr : Nat
  writer : σ
  progress : Option Chan
  frameNumber : Nat
  deriving DecidableEq

/-! ## writeCallback -/

/-- The loop of `writeCallback` (lines 108-115), started with `bytesWritten` at
the given value.  Each iteration costs one unit of the step budget; an
exhausted budget with bytes still to write is `noReturn`.  The slice expression
panics when `bytesWritten` is outside `0 .. len(data)`.  `bytesWritten` is a Go
`int`; it is carried as an `Int`, which agrees with the wrapped sum: `len(data)`
is a C `int`, and a sum that leaves `0 .. len(data)` panics at the next slice
expression, wrapped or not.  Returns the code, the sink state and the calls. -/
def writeLoop {σ : Type} (W : Writer σ) (data : List Byte) :
    Nat → Int → σ → Outcome Int × σ × List WriteCall
  | 0, bytesWritten, w =>
    if bytesWritten ≠ (data.length : Int) then (Outcome.noReturn, w, [])
    else (Outcome.ret Ok, w, [])
  | fuel + 1, bytesWritten, w =>
    if bytesWritten ≠ (data.length : Int) then
      if bytesWritten < 0 ∨ (data.length : Int) < bytesWritten then (Outcome.panic, w, [])
      else
        let p := data.drop bytesWritten.toNat
        let r := W.Write w p
        let call : WriteCall := ⟨bytesWritten, p, r.1.n, r.1.err⟩
        if r.1.err then (Outcome.ret Other, r.2, [call])
        else
          let rest := writeLoop W data fuel (bytesWritten + r.1.n) r.2
          (rest.1, rest.2.1, call :: rest.2.2)
    else (Outcome.ret Ok, w, [])

/-- The C `int` that `writeCallback` receives for a chunk of `n` bytes.  The
engine calls through `write_callback_fn`, whose first parameter is a `size_t`;
the exported function is declared with an `int` there and cast to that type
(lines 9-13), so Go sees the low 32 bits of the length, read as signed. -/
def cInt (n : Nat) : Int :=
  if n % 2 ^ 32 < 2 ^ 31 then ((n % 2 ^ 32 : Nat) : Int)
  else ((n % 2 ^ 32 : Nat) : Int) - 2 ^ 32

/-- `C.GoBytes(buffer, bufferLength)`: a Go slice holding the first
`bufferLength` bytes at `buffer`, the list being the bytes from the pointer
on; `none` is the panic on a negative length. -/
def GoBytes (buffer : List Byte) (bufferLength : Int) : Option (List Byte) :=
  if bufferLength < 0 then none else some (buffer.take bufferLength.toNat)

/-- The bytes of an engine chunk that reach the write loop: the slice that
`C.GoBytes` makes for the C `int` received as the length of the chunk. -/
def copied (chunk : List Byte) : List Byte := chunk.take (cInt chunk.length).toNat

/-- The exported `writeCallback`.  `bufferLength` is the C `int` received,
`buffer` the bytes at the pointer received, `g` the session restored from
`userData`.  Returns the C `int` code, the session with the sink state after
the call, and the `Write` calls made. -/
def writeCallback {σ : Type} (W : Writer σ) (fuel : Nat) (g : Gifski σ) (bufferLength : Int)
    (buffer : List Byte) : Outcome Int × Gifski σ × List WriteCall :=
  if bufferLength ≠ 0 then
    match GoBytes buffer bufferLength with
    | none => (Outcome.panic, g, [])
    | some data =>
      let r := writeLoop W data fuel 0 g.writer
      (r.1, { g with writer := r.2.1 }, r.2.2)
  else (Outcome.ret Ok, g, [])

/-- The engine delivering a sequence of chunks, one `writeCallback` invocation
per chunk, in order, each with the pointer to the chunk and its length as the
C `int` that arrives.  For each chunk: the code returned and the calls made. -/
def deliver {σ : Type} (W : Writer σ) (fuel : Nat) :
    Gifski σ → List (List Byte) → List (Outcome Int × List WriteCall) × Gifski σ
  | g, [] => ([], g)
  | g, chunk :: rest =>
    let r := writeCallback W fuel g (cInt chunk.length) chunk
    let rs := deliver W fuel r.2.1 rest
    ((r.1, r.2.2) :: rs.1, rs.2)

/-- The reply the sink gave to a logged call. -/
def WriteCall.reply (c : WriteCall) : WriteReply := ⟨c.n, c.err⟩

/-- The sink run on its own: `Write` called with each slice in turn, starting
from a given state.  Returns the replies and the state reached. -/
def Writer.replay {σ : Type} (W : Writer σ) : σ → List (List Byte) → List WriteReply × σ
  | w, [] => ([], w)
  | w, p :: ps =>
    let r := W.Write w p
    let rs := Writer.replay W r.2 ps
    (r.1 :: rs.1, rs.2)

/-- A sink that never returns an error and on each call accepts between 1 and
all of the bytes offered. -/
def Writer.Accepting {σ : Type} (W : Writer σ) : Prop :=
  ∀ (w : σ) (p : List Byte), p ≠ [] →
    (W.Write w p).1.err = false ∧ 1 ≤ (W.Write w p).1.n ∧ (W.Write w p).1.n ≤ (p.length : Int)

/-- A sink whose every call either returns an error or reports a count between
1 and the number of bytes offered. -/
def Writer.ErrOrProgress {σ : Type} (W : Writer σ) : Prop :=
  ∀ (w : σ) (p : List Byte), p ≠ [] →
    (W.Write w p).1.err = true ∨ (1 ≤ (W.Write w p).1.n ∧ (W.Write w p).1.n ≤ (p.length : Int))

/-- The calls of one chunk resume: the first is made at offset `off` and offers
`data[off:]`, and each next one is made where the previous one stopped. -/
def Resumes (data : List Byte) : Int → List WriteCall → Prop
  | _, [] => True
  | off, c :: cs => c.offset = off ∧ c.p = data.drop off.toNat ∧ Resumes data (off + c.n) cs

/-- A sink that records what it accepted and takes at most two bytes a call. -/
def twoAtATime : Writer (List Byte) where
  Write := fun w p => (⟨(min 2 p.length : Nat), false⟩, w ++ p.take 2)

/-- A sink that accepts one byte on its first call, then fails reporting 1. -/
def failsSecond : Writer Nat where
  Write := fun w _ => (⟨1, decide (1 ≤ w)⟩, w + 1)

/-- A session value around a sink state, for running the callbacks. -/
def sessionOf {σ : Type} (w : σ) : Gifski σ :=
  { handle := 1, ptr := 1, writer := w, progress := some ⟨false, []⟩, frameNumber := 0 }

/-! ## Sessions -/

/-- Settings controls the operation of gifski.  The numeric fields are Go
`uint`s. -/
structure Settings where
  Width : Nat
  Height : Nat
  Quality : Nat
  Once : Bool
  Fast : Bool
  ReportProgress : Bool
  deriving DecidableEq, Repr

/-- The `C.GifskiSettings` value built by `NewGifski`. -/
structure CSettings where
  width : Nat
  height : Nat
  quality : Nat
  once : Bool
  fast : Bool
  deriving DecidableEq, Repr

/-- A call that leaves the binding: into the native engine, into the
`go-pointer` registry, or `close` on the progress channel.  `timestamp` is the
`float64` presentation time, handed on unread and carried as a token. -/
inductive Event where
  | gifskiNew (s : CSettings)
  | pointerSave (ptr : Nat)
  | setWriteCallback (handle ptr : Nat)
  | setProgressCallback (handle ptr : Nat)
  | addFrameRgba (handle frameNumber width height : Nat) (pixels : List Byte) (timestamp : Nat)
  | gifskiFinish (handle : Nat)
  | closeProgress
  | pointerUnref (ptr : Nat)
  deriving DecidableEq, Repr

/-- What the collaborators reply while `NewGifski` runs: the handle of
`gifski_new` (`none` for NULL), the token of `pointer.Save`, the status of
`gifski_set_write_callback`, and the status of the `gifski_finish` made on the
failure path. -/
structure NativeOpen where
  handle : Option Nat
  ptr : Nat
  setWriteCallback : Int
  finish : Int
  deriving DecidableEq, Repr

/-- NewGifski creates a new instance of gifski with the specified settings.
Returns the Go pair `(*Gifski, error)` and the calls made, in order.  On the
failure path of the write-callback registration the block declares a second
`errorCode` with `:=`, bound to the status of `gifski_finish`; that one is the
`errorCode` of the returned `Error`. -/
def NewGifski {σ : Type} (settings : Settings) (writer : σ) (native : NativeOpen) :
    (Option (Gifski σ) × Option GoError) × List Event :=
  let s : CSettings :=
    ⟨settings.Width % 2 ^ 32, settings.Height % 2 ^ 32, settings.Quality % 2 ^ 8,
      settings.Once, settings.Fast⟩
  match native.handle with
  | none => ((none, some (GoError.message "failed to create new gifski instance")),
      [Event.gifskiNew s])
  | some handle =>
    let g : Gifski σ :=
      { handle := handle, ptr := native.ptr, writer := writer,
        progress := some ⟨false, []⟩, frameNumber := 0 }
    let errorCode := native.setWriteCallback
    if errorCode ≠ Ok then
      let errorCode := native.finish
      ((none, some (GoError.gifski ⟨errorCode⟩)),
        [Event.gifskiNew s, Event.pointerSave g.ptr, Event.setWriteCallback handle g.ptr,
          Event.gifskiFinish g.handle, Event.closeProgress, Event.pointerUnref g.ptr])
    else if settings.ReportProgress then
      ((some g, none),
        [Event.gifskiNew s, Event.pointerSave g.ptr, Event.setWriteCallback handle g.ptr,
          Event.setProgressCallback handle g.ptr])
    else
      ((some g, none),
        [Event.gifskiNew s, Event.pointerSave g.ptr, Event.setWriteCallback handle g.ptr])

/-- AddFrame adds a frame to the animation.  `errorCode` is the status the
engine replies with if it is called.  `&pixels[0]` is evaluated before the
call and panics on an empty slice; otherwise the engine is called with the
three `uint`s converted to C `unsigned int` and a pointer to the buffer.  No
field of the session changes. -/
def AddFrame {σ : Type} (g : Gifski σ) (frameNumber width height : Nat) (pixels : List Byte)
    (presentationTimeStamp : Nat) (errorCode : Int) : Outcome (Option GoError) × List Event :=
  match pixels with
  | [] => (Outcome.panic, [])
  | _ :: _ =>
    (if errorCode = Ok then Outcome.ret none
      else Outcome.ret (some (GoError.gifski ⟨errorCode⟩)),
      [Event.addFrameRgba g.handle (frameNumber % 2 ^ 32) (width % 2 ^ 32) (height % 2 ^ 32)
        pixels presentationTimeStamp])

/-- Progress gets the progress channel which reports the frame index. -/
def Progress {σ : Type} (g : Gifski σ) : Option Chan := g.progress

/-- Finish returns final status of write operations.  `errorCode` is the status
`gifski_finish` replies with.  `close` on an already closed channel panics;
the deferred `pointer.Unref` runs on every path, last. -/
def Finish {σ : Type} (g : Gifski σ) (errorCode : Int) :
    Outcome (Option GoError) × Gifski σ × List Event :=
  match g.progress with
  | none =>
    (if errorCode = Ok then Outcome.ret none
      else Outcome.ret (some (GoError.gifski ⟨errorCode⟩)),
      g, [Event.gifskiFinish g.handle, Event.pointerUnref g.ptr])
  | some ch =>
    if ch.closed then
      (Outcome.panic, g,
        [Event.gifskiFinish g.handle, Event.closeProgress, Event.pointerUnref g.ptr])
    else
      (if errorCode = Ok then Outcome.ret none
        else Outcome.ret (some (GoError.gifski ⟨errorCode⟩)),
        { g with progress := some { ch with closed := true } },
        [Event.gifskiFinish g.handle, Event.closeProgress, Event.pointerUnref g.ptr])

/-- The exported `progressCallback`.  `bits` is the width of Go's `uint` on the
target (32 or 64).  The send blocks for ever on a nil channel, panics on a
closed one, and otherwise completes only when a reader receives the value
(`reader`).  Then the counter is incremented, wrapping at `2 ^ bits`.  The code
returned is 1 (0 would mean abort). -/
def progressCallback {σ : Type} (bits : Nat) (g : Gifski σ) (reader : Bool) :
    Outcome Int × Gifski σ :=
  match g.progress with
  | none => (Outcome.noReturn, g)
  | some ch =>
    if ch.closed then (Outcome.panic, g)
    else if reader then
      (Outcome.ret 1,
        { g with
          progress := some { ch with received := ch.received ++ [g.frameNumber] },
          frameNumber := (g.frameNumber + 1) % 2 ^ bits })
    else (Outcome.noReturn, g)

/-- The engine invoking `progressCallback` a number of times, each send
consumed by a reader.  Returns the codes and the session afterwards. -/
def progressCallbacks {σ : Type} (bits : Nat) : Nat → Gifski σ → List (Outcome Int) × Gifski σ
  | 0, g => ([], g)
  | k + 1, g =>
    let r := progressCallback bits g true
    let rs := progressCallbacks bits k r.2
    (r.1 :: rs.1, rs.2)

/-- What a receive on a channel does. -/
inductive Recv where
  | value (v : Nat)
  | endOfStream
  | blocks
  deriving DecidableEq, Repr

/-- A receive on the progress channel, given the value of a sender blocked on
it, if there is one: a nil channel blocks for ever, a closed channel reports
end of stream at once, an open one hands over the value of the sender and
otherwise blocks. -/
def recv (c : Option Chan) (sender : Option Nat) : Recv :=
  match c with
  | none => Recv.blocks
  | some ch =>
    if ch.closed then Recv.endOfStream
    else
      match sender with
      | some v => Recv.value v
      | none => Recv.blocks

/-- An active session: one that `NewGifski` returned and on which `Finish` has
not run, so its progress channel exists and is open. -/
def Active {σ : Type} (g : Gifski σ) : Prop :=
  ∃ ch : Chan, g.progress = some ch ∧ ch.closed = false

/-- Whether a call is the native finalization `gifski_finish`. -/
def Event.isFinish : Event → Bool
  | Event.gifskiFinish _ => true
  | _ => false

/-- Whether a call is `close` on the progress channel. -/
def Event.isClose : Event → Bool
  | Event.closeProgress => true
  | _ => false

/-- Whether a call is `pointer.Unref`, the release of the callback
registration. -/
def Event.isUnref : Event → Bool
  | Event.pointerUnref _ => true
  | _ => false

/-- Replies of a native engine that accepts the open. -/
def nativeOk : NativeOpen := ⟨some 7, 1, 0, 0⟩

/-- Replies of a native engine that refuses the write callback with
InvalidState and then finalizes the handle with Ok. -/
def nativeRefuses : NativeOpen := ⟨some 7, 1, 2, 0⟩

/-- Settings of the test, without progress reports. -/
def quietSettings : Settings := ⟨512, 384, 80, false, false, false⟩

/-- Settings of the test, with progress reports. -/
def testSettings : Settings := ⟨512, 384, 80, false, false, true⟩

/-- The session `NewGifski` returns for `nativeOk`. -/
def openedSession : Gifski Unit :=
  { handle := 7, ptr := 1, writer := (), progress := some ⟨false, []⟩, frameNumber := 0 }

/-! ## The write loop -/

/-- The loop is over once `bytesWritten` equals the length of the chunk. -/
theorem writeLoop_done {σ : Type} (W : Writer σ) (data : List Byte) (fuel : Nat) (bw : Int)
    (w : σ) (h : bw = (data.length : Int)) :
    writeLoop W data fuel bw w = (Outcome.ret Ok, w, []) := by
  cases fuel <;> simp [writeLoop, h]

/-- The slice expression panics on an offset outside the chunk. -/
theorem writeLoop_outside {σ : Type} (W : Writer σ) (data : List Byte) (fuel : Nat) (bw : Int)
    (w : σ) (h : bw < 0 ∨ (data.length : Int) < bw) :
    writeLoop W data (fuel + 1) bw w = (Outcome.panic, w, []) := by
  have hne : ¬ (bw = (data.length : Int)) := by omega
  simp [writeLoop, hne, h]

/-- An iteration whose `Write` returns an error. -/
theorem writeLoop_err {σ : Type} (W : Writer σ) (data : List Byte) (fuel : Nat) (bw : Int)
    (w : σ) (h0 : 0 ≤ bw) (h1 : bw < (data.length : Int))
    (herr : (W.Write w (data.drop bw.toNat)).1.err = true) :
    writeLoop W data (fuel + 1) bw w =
      (Outcome.ret Other, (W.Write w (data.drop bw.toNat)).2,
        [⟨bw, data.drop bw.toNat, (W.Write w (data.drop bw.toNat)).1.n, true⟩]) := by
  have hne : ¬ (bw = (data.length : Int)) := by omega
  have hnp : ¬ (bw < 0 ∨ (data.length : Int) < bw) := by omega
  simp [writeLoop, hne, hnp, herr]

/-- An iteration whose `Write` returns no error. -/
theorem writeLoop_step {σ : Type} (W : Writer σ) (data : List Byte) (fuel : Nat) (bw : Int)
    (w : σ) (h0 : 0 ≤ bw) (h1 : bw < (data.length : Int))
    (herr : (W.Write w (data.drop bw.toNat)).1.err = false) :
    writeLoop W data (fuel + 1) bw w =
      ((writeLoop W data fuel (bw + (W.Write w (data.drop bw.toNat)).1.n)
          (W.Write w (data.drop bw.toNat)).2).1,
        (writeLoop W data fuel (bw + (W.Write w (data.drop bw.toNat)).1.n)
          (W.Write w (data.drop bw.toNat)).2).2.1,
        ⟨bw, data.drop bw.toNat, (W.Write w (data.drop bw.toNat)).1.n, false⟩ ::
          (writeLoop W data fuel (bw + (W.Write w (data.drop bw.toNat)).1.n)
            (W.Write w (data.drop bw.toNat)).2).2.2) := by
  have hne : ¬ (bw = (data.length : Int)) := by omega
  have hnp : ¬ (bw < 0 ∨ (data.length : Int) < bw) := by omega
  simp [writeLoop, hne, hnp, herr]

/-- The budget ran out with bytes still to write. -/
theorem writeLoop_zero {σ : Type} (W : Writer σ) (data : List Byte) (bw : Int)
    (w : σ) (h : bw ≠ (data.length : Int)) :
    writeLoop W data 0 bw w = (Outcome.noReturn, w, []) := by
  simp [writeLoop, h]

/-- A suffix of a chunk that starts inside the chunk is not empty. -/
theorem drop_ne_nil (data : List Byte) (bw : Nat) (h : bw < data.length) :
    data.drop bw ≠ [] := by
  intro h0
  have := congrArg List.length h0
  simp at this
  omega

/-- With a sink that always accepts between 1 and all bytes, the loop started at
offset `bw` with a budget of at least the bytes left returns Ok, the accepted
ranges add up to `data[bw:]`, and the calls resume from `bw`. -/
theorem writeLoop_accepting {σ : Type} (W : Writer σ) (hW : W.Accepting) (data : List Byte) :
    ∀ (fuel bw : Nat) (w : σ), bw ≤ data.length → data.length - bw ≤ fuel →
      (writeLoop W data fuel (bw : Int) w).1 = Outcome.ret Ok ∧
      acceptedBytes (writeLoop W data fuel (bw : Int) w).2.2 = data.drop bw ∧
      Resumes data (bw : Int) (writeLoop W data fuel (bw : Int) w).2.2 := by
  intro fuel
  induction fuel with
  | zero =>
    intro bw w hle hfuel
    have hbw : bw = data.length := by omega
    subst hbw
    simp [writeLoop_done, acceptedBytes, Resumes]
  | succ fuel ih =>
    intro bw w hle hfuel
    by_cases hbw : bw = data.length
    · subst hbw
      simp [writeLoop_done, acceptedBytes, Resumes]
    · have hlt : bw < data.length := by omega
      obtain ⟨herr, h1, h2⟩ := hW w (data.drop bw) (drop_ne_nil data bw hlt)
      have hlen : (data.drop bw).length = data.length - bw := by simp
      rw [hlen] at h2
      obtain ⟨m, hm⟩ : ∃ m : Nat, (W.Write w (data.drop bw)).1.n = (m : Int) :=
        ⟨(W.Write w (data.drop bw)).1.n.toNat, by omega⟩
      have hsum : ((bw : Int) + (m : Int)) = ((bw + m : Nat) : Int) := by push_cast; rfl
      obtain ⟨i1, i2, i3⟩ := ih (bw + m) (W.Write w (data.drop bw)).2 (by omega) (by omega)
      rw [writeLoop_step W data fuel bw w (by omega) (by omega) (by simpa using herr)]
      simp only [Int.toNat_ofNat, hm, hsum]
      refine ⟨i1, ?_, ?_⟩
      · simp only [acceptedBytes, List.map_cons, List.flatten_cons, WriteCall.accepted,
          Int.toNat_ofNat]
        have := i2
        simp only [acceptedBytes] at this
        rw [this, ← List.drop_drop, List.take_append_drop]
      · simp only [Resumes, Int.toNat_ofNat, hsum, true_and]
        exact i3

/-- A length below `2 ^ 31` arrives unchanged as the C `int`. -/
theorem cInt_of_lt (n : Nat) (h : n < 2 ^ 31) : cInt n = (n : Int) := by
  have hmod : n % 2 ^ 32 = n := Nat.mod_eq_of_lt (by omega)
  unfold cInt
  rw [hmod, if_pos h]

/-- The C `int` received for a length is never more than the length. -/
theorem cInt_toNat_le (n : Nat) : (cInt n).toNat ≤ n := by
  unfold cInt
  split <;> omega

/-- A chunk shorter than `2 ^ 31` bytes is copied whole. -/
theorem copied_of_lt (chunk : List Byte) (h : chunk.length < 2 ^ 31) : copied chunk = chunk := by
  simp [copied, cInt_of_lt _ h]

/-- The slice copied from a chunk has the length the C `int` says, or none. -/
theorem copied_length (chunk : List Byte) : (copied chunk).length = (cInt chunk.length).toNat := by
  have := cInt_toNat_le chunk.length
  simp only [copied, List.length_take]
  omega

/-- A zero length makes `writeCallback` return Ok at once. -/
theorem writeCallback_skip {σ : Type} (W : Writer σ) (fuel : Nat) (g : Gifski σ)
    (bufferLength : Int) (buffer : List Byte) (h : bufferLength = 0) :
    writeCallback W fuel g bufferLength buffer = (Outcome.ret Ok, g, []) := by
  simp [writeCallback, h]

/-- A panic of `C.GoBytes` ends `writeCallback` before any call. -/
theorem writeCallback_panics {σ : Type} (W : Writer σ) (fuel : Nat) (g : Gifski σ)
    (bufferLength : Int) (buffer : List Byte) (h : bufferLength ≠ 0)
    (hG : GoBytes buffer bufferLength = none) :
    writeCallback W fuel g bufferLength buffer = (Outcome.panic, g, []) := by
  simp [writeCallback, h, hG]

/-- Otherwise `writeCallback` runs the loop on the slice copied. -/
theorem writeCallback_loops {σ : Type} (W : Writer σ) (fuel : Nat) (g : Gifski σ)
    (bufferLength : Int) (buffer data : List Byte) (h : bufferLength ≠ 0)
    (hG : GoBytes buffer bufferLength = some data) :
    writeCallback W fuel g bufferLength buffer =
      ((writeLoop W data fuel 0 g.writer).1,
        { g with writer := (writeLoop W data fuel 0 g.writer).2.1 },
        (writeLoop W data fuel 0 g.writer).2.2) := by
  simp [writeCallback, h, hG]

/-- A chunk whose length arrives as 0 makes `writeCallback` return Ok at once. -/
theorem writeCallback_zero {σ : Type} (W : Writer σ) (fuel : Nat) (g : Gifski σ)
    (chunk : List Byte) (h : cInt chunk.length = 0) :
    writeCallback W fuel g (cInt chunk.length) chunk = (Outcome.ret Ok, g, []) := by
  simp [writeCallback, h]

/-- A chunk whose length arrives negative makes `C.GoBytes` panic. -/
theorem writeCallback_negative {σ : Type} (W : Writer σ) (fuel : Nat) (g : Gifski σ)
    (chunk : List Byte) (h : cInt chunk.length < 0) :
    writeCallback W fuel g (cInt chunk.length) chunk = (Outcome.panic, g, []) := by
  have hne : ¬ (cInt chunk.length = 0) := by omega
  simp [writeCallback, GoBytes, hne, h]

/-- A chunk whose length arrives positive is copied and handed to the loop. -/
theorem writeCallback_positive {σ : Type} (W : Writer σ) (fuel : Nat) (g : Gifski σ)
    (chunk : List Byte) (h : 0 < cInt chunk.length) :
    writeCallback W fuel g (cInt chunk.length) chunk =
      ((writeLoop W (copied chunk) fuel 0 g.writer).1,
        { g with writer := (writeLoop W (copied chunk) fuel 0 g.writer).2.1 },
        (writeLoop W (copied chunk) fuel 0 g.writer).2.2) := by
  have hne : ¬ (cInt chunk.length = 0) := by omega
  have hnn : ¬ (cInt chunk.length < 0) := by omega
  simp [writeCallback, GoBytes, hne, hnn, copied]

/-- One invocation of `writeCallback` with an always-accepting sink, a chunk
shorter than `2 ^ 31` bytes and a budget of at least the chunk length. -/
theorem writeCallback_accepting {σ : Type} (W : Writer σ) (hW : W.Accepting) (fuel : Nat)
    (g : Gifski σ) (chunk : List Byte) (hsize : chunk.length < 2 ^ 31)
    (hfuel : chunk.length ≤ fuel) :
    (writeCallback W fuel g (cInt chunk.length) chunk).1 = Outcome.ret Ok ∧
    acceptedBytes (writeCallback W fuel g (cInt chunk.length) chunk).2.2 = chunk ∧
    Resumes chunk 0 (writeCallback W fuel g (cInt chunk.length) chunk).2.2 ∧
    (chunk = [] → (writeCallback W fuel g (cInt chunk.length) chunk).2.2 = []) := by
  by_cases hc : chunk = []
  · subst hc
    simp [writeCallback, cInt, acceptedBytes, Resumes]
  · have hpos : 0 < chunk.length := List.length_pos.mpr hc
    have hci := cInt_of_lt _ hsize
    obtain ⟨h1, h2, h3⟩ := writeLoop_accepting W hW chunk fuel 0 g.writer (Nat.zero_le _)
      (by omega)
    rw [writeCallback_positive W fuel g chunk (by omega), copied_of_lt chunk hsize]
    refine ⟨h1, ?_, ?_, fun h => absurd h hc⟩
    · simpa using h2
    · simpa using h3

/-- The calls logged by the loop are the calls the sink received: run on its
own from the starting state with the slices logged, the sink gives the replies
logged and reaches the state the loop returns. -/
theorem writeLoop_replay {σ : Type} (W : Writer σ) (data : List Byte) :
    ∀ (fuel : Nat) (bw : Int) (w : σ),
      W.replay w ((writeLoop W data fuel bw w).2.2.map WriteCall.p) =
        ((writeLoop W data fuel bw w).2.2.map WriteCall.reply,
          (writeLoop W data fuel bw w).2.1) := by
  intro fuel
  induction fuel with
  | zero =>
    intro bw w
    by_cases h1 : bw = (data.length : Int)
    · rw [writeLoop_done W data 0 bw w h1]
      rfl
    · rw [writeLoop_zero W data bw w h1]
      rfl
  | succ fuel ih =>
    intro bw w
    by_cases h1 : bw = (data.length : Int)
    · rw [writeLoop_done W data _ bw w h1]
      rfl
    · by_cases h2 : bw < 0 ∨ (data.length : Int) < bw
      · rw [writeLoop_outside W data fuel bw w h2]
        rfl
      · by_cases h3 : (W.Write w (data.drop bw.toNat)).1.err = true
        · rw [writeLoop_err W data fuel bw w (by omega) (by omega) h3]
          simp only [List.map_cons, List.map_nil, Writer.replay, WriteCall.reply, ← h3]
        · have h3f : (W.Write w (data.drop bw.toNat)).1.err = false := by simpa using h3
          rw [writeLoop_step W data fuel bw w (by omega) (by omega) h3f]
          simp only [List.map_cons, Writer.replay, WriteCall.reply, ← h3f, ih]

/-- The sink run over two runs of slices, one after the other. -/
theorem replay_append {σ : Type} (W : Writer σ) :
    ∀ (xs ys : List (List Byte)) (w : σ),
      W.replay w (xs ++ ys) =
        ((W.replay w xs).1 ++ (W.replay (W.replay w xs).2 ys).1,
          (W.replay (W.replay w xs).2 ys).2) := by
  intro xs
  induction xs with
  | nil =>
    intro ys w
    simp [Writer.replay]
  | cons x xs ih =>
    intro ys w
    simp [Writer.replay, ih]

/-- The calls logged by one invocation of `writeCallback` are the calls the sink
received, and the session holds the state the sink reached. -/
theorem writeCallback_replay {σ : Type} (W : Writer σ) (fuel : Nat) (g : Gifski σ)
    (bufferLength : Int) (buffer : List Byte) :
    W.replay g.writer ((writeCallback W fuel g bufferLength buffer).2.2.map WriteCall.p) =
      ((writeCallback W fuel g bufferLength buffer).2.2.map WriteCall.reply,
        (writeCallback W fuel g bufferLength buffer).2.1.writer) := by
  unfold writeCallback
  split
  · split
    · rfl
    · exact writeLoop_replay W _ fuel 0 g.writer
  · rfl

/-- The calls logged over a sequence of chunks are the calls the sink received,
in order, and the session ends with the state the sink reached. -/
theorem deliver_replay {σ : Type} (W : Writer σ) (fuel : Nat) :
    ∀ (chunks : List (List Byte)) (g : Gifski σ),
      W.replay g.writer
          (((deliver W fuel g chunks).1.map Prod.snd).flatten.map WriteCall.p) =
        (((deliver W fuel g chunks).1.map Prod.snd).flatten.map WriteCall.reply,
          (deliver W fuel g chunks).2.writer) := by
  intro chunks
  induction chunks with
  | nil =>
    intro g
    rfl
  | cons chunk rest ih =>
    intro g
    have h1 := writeCallback_replay W fuel g (cInt chunk.length) chunk
    have h2 := ih (writeCallback W fuel g (cInt chunk.length) chunk).2.1
    simp only [deliver, List.map_cons, List.flatten_cons, List.map_append, replay_append,
      h1, h2]

/-- The accepted bytes of two runs of calls, one after the other. -/
theorem acceptedBytes_append (xs ys : List WriteCall) :
    acceptedBytes (xs ++ ys) = acceptedBytes xs ++ acceptedBytes ys := by
  simp [acceptedBytes]

/-- A call that returned an error is the last call of the loop, and the loop
then returned Other. -/
theorem writeLoop_error_last {σ : Type} (W : Writer σ) (data : List Byte) :
    ∀ (fuel : Nat) (bw : Int) (w : σ) (before after : List WriteCall) (c : WriteCall),
      (writeLoop W data fuel bw w).2.2 = before ++ c :: after → c.err = true →
      after = [] ∧ (writeLoop W data fuel bw w).1 = Outcome.ret Other := by
  intro fuel
  induction fuel with
  | zero =>
    intro bw w before after c h _
    exfalso
    by_cases h1 : bw = (data.length : Int)
    · rw [writeLoop_done W data 0 bw w h1] at h
      simp at h
    · rw [writeLoop_zero W data bw w h1] at h
      simp at h
  | succ fuel ih =>
    intro bw w before after c h herr
    by_cases h1 : bw = (data.length : Int)
    · rw [writeLoop_done W data _ bw w h1] at h
      simp at h
    · by_cases h2 : bw < 0 ∨ (data.length : Int) < bw
      · rw [writeLoop_outside W data fuel bw w h2] at h
        simp at h
      · by_cases h3 : (W.Write w (data.drop bw.toNat)).1.err = true
        · rw [writeLoop_err W data fuel bw w (by omega) (by omega) h3] at h ⊢
          cases before with
          | nil =>
            simp only [List.nil_append, List.cons.injEq] at h
            exact ⟨h.2.symm, rfl⟩
          | cons b bs =>
            simp at h
        · have h3f : (W.Write w (data.drop bw.toNat)).1.err = false := by simpa using h3
          rw [writeLoop_step W data fuel bw w (by omega) (by omega) h3f] at h ⊢
          cases before with
          | nil =>
            simp only [List.nil_append, List.cons.injEq] at h
            exfalso
            rw [← h.1] at herr
            simp at herr
          | cons b bs =>
            simp only [List.cons_append, List.cons.injEq] at h
            exact ih _ _ bs after c h.2 herr

/-- With a sink whose calls either fail or make progress within the slice, the
loop started inside the chunk with a budget of at least the bytes left ends by
returning Ok or Other, makes at most as many calls as bytes were left, and
every call is made at an offset inside the chunk and stops inside it. -/
theorem writeLoop_bounded {σ : Type} (W : Writer σ) (hW : W.ErrOrProgress) (data : List Byte) :
    ∀ (fuel bw : Nat) (w : σ), bw ≤ data.length → data.length - bw ≤ fuel →
      ((writeLoop W data fuel (bw : Int) w).1 = Outcome.ret Ok ∨
        (writeLoop W data fuel (bw : Int) w).1 = Outcome.ret Other) ∧
      (writeLoop W data fuel (bw : Int) w).2.2.length ≤ data.length - bw ∧
      ∀ c ∈ (writeLoop W data fuel (bw : Int) w).2.2,
        (bw : Int) ≤ c.offset ∧ c.offset < (data.length : Int) ∧
        c.p = data.drop c.offset.toNat ∧
        (c.err = false → c.offset + c.n ≤ (data.length : Int)) := by
  intro fuel
  induction fuel with
  | zero =>
    intro bw w hle hfuel
    have hbw : bw = data.length := by omega
    subst hbw
    simp [writeLoop_done]
  | succ fuel ih =>
    intro bw w hle hfuel
    by_cases hbw : bw = data.length
    · subst hbw
      simp [writeLoop_done]
    · have hlt : bw < data.length := by omega
      have hlen : (data.drop bw).length = data.length - bw := by simp
      by_cases herr : (W.Write w (data.drop bw)).1.err = true
      · rw [writeLoop_err W data fuel bw w (by omega) (by omega) (by simpa using herr)]
        refine ⟨Or.inr rfl, ?_, ?_⟩
        · simp only [List.length_singleton]
          omega
        · intro c hc
          simp only [List.mem_singleton] at hc
          subst hc
          refine ⟨le_refl _, ?_, rfl, ?_⟩
          · show (bw : Int) < (data.length : Int)
            omega
          · intro h
            simp at h
      · rcases hW w (data.drop bw) (drop_ne_nil data bw hlt) with h | ⟨h1, h2⟩
        · exact absurd h herr
        · rw [hlen] at h2
          obtain ⟨m, hm⟩ : ∃ m : Nat, (W.Write w (data.drop bw)).1.n = (m : Int) :=
            ⟨(W.Write w (data.drop bw)).1.n.toNat, by omega⟩
          have hsum : ((bw : Int) + (m : Int)) = ((bw + m : Nat) : Int) := by push_cast; rfl
          obtain ⟨i1, i2, i3⟩ := ih (bw + m) (W.Write w (data.drop bw)).2 (by omega) (by omega)
          rw [writeLoop_step W data fuel bw w (by omega) (by omega) (by simpa using herr)]
          simp only [Int.toNat_ofNat, hm, hsum]
          refine ⟨i1, ?_, ?_⟩
          · simp only [List.length_cons]
            omega
          · intro c hc
            simp only [List.mem_cons] at hc
            rcases hc with hc | hc
            · subst hc
              refine ⟨le_refl _, ?_, rfl, ?_⟩
              · show (bw : Int) < (data.length : Int)
                omega
              · intro _
                show (bw : Int) + (m : Int) ≤ (data.length : Int)
                omega
            · obtain ⟨j1, j2, j3, j4⟩ := i3 c hc
              exact ⟨by omega, j2, j3, j4⟩

/-- The sink `twoAtATime` never fails and accepts 1 or 2 of the bytes offered. -/
theorem twoAtATime_accepting : twoAtATime.Accepting := by
  intro w p hp
  have hlen : 1 ≤ p.length := by
    cases p with
    | nil => exact absurd rfl hp
    | cons a t => simp
  refine ⟨rfl, ?_, ?_⟩
  · show (1 : Int) ≤ ((min 2 p.length : Nat) : Int)
    omega
  · show ((min 2 p.length : Nat) : Int) ≤ (p.length : Int)
    omega

/-- The sink `failsSecond` reports one byte on every call. -/
theorem failsSecond_errOrProgress : failsSecond.ErrOrProgress := by
  intro w p hp
  have hlen : 1 ≤ p.length := by
    cases p with
    | nil => exact absurd rfl hp
    | cons a t => simp
  refine Or.inr ⟨le_refl _, ?_⟩
  show (1 : Int) ≤ (p.length : Int)
  omega

/-- Delivery of a single chunk is one invocation of `writeCallback`. -/
theorem deliver_single {σ : Type} (W : Writer σ) (fuel : Nat) (g : Gifski σ)
    (chunk : List Byte) :
    deliver W fuel g [chunk] =
      ([((writeCallback W fuel g (cInt chunk.length) chunk).1,
          (writeCallback W fuel g (cInt chunk.length) chunk).2.2)],
        (writeCallback W fuel g (cInt chunk.length) chunk).2.1) := rfl

/-! ## Claims on writeCallback -/

/-- C1 as stated fails: a chunk of `2 ^ 32` bytes delivered to a sink that never
fails and accepts 1 or 2 of the bytes offered.  The length arrives as the C
`int` 0, so `writeCallback` returns Ok without a sink call and the sink has
accepted nothing, while the chunk is not empty: its bytes are dropped.  A chunk
of `2 ^ 31` bytes arrives with a negative length and `C.GoBytes` panics. -/
theorem writeCallback_drops_huge_chunk :
    twoAtATime.Accepting ∧
    (deliver twoAtATime (2 ^ 32) (sessionOf []) [List.replicate (2 ^ 32) 0]).1 =
      [(Outcome.ret Ok, [])] ∧
    (deliver twoAtATime (2 ^ 32) (sessionOf []) [List.replicate (2 ^ 32) 0]).2.writer = [] ∧
    acceptedBytes
        ((deliver twoAtATime (2 ^ 32) (sessionOf []) [List.replicate (2 ^ 32) 0]).1.map
          Prod.snd).flatten ≠
      ([List.replicate (2 ^ 32) 0] : List (List Byte)).flatten ∧
    (deliver twoAtATime (2 ^ 31) (sessionOf []) [List.replicate (2 ^ 31) 0]).1 =
      [(Outcome.panic, [])] := by
  have h32 : cInt (List.replicate (2 ^ 32) (0 : Byte)).length = 0 := by
    rw [List.length_replicate]
    decide
  have h31 : cInt (List.replicate (2 ^ 31) (0 : Byte)).length < 0 := by
    rw [List.length_replicate]
    decide
  have hrun : deliver twoAtATime (2 ^ 32) (sessionOf []) [List.replicate (2 ^ 32) 0] =
      ([(Outcome.ret Ok, [])], sessionOf []) := by
    rw [deliver_single, writeCallback_zero twoAtATime _ _ _ h32]
  have hpanic : deliver twoAtATime (2 ^ 31) (sessionOf []) [List.replicate (2 ^ 31) 0] =
      ([(Outcome.panic, [])], sessionOf []) := by
    rw [deliver_single, writeCallback_negative twoAtATime _ _ _ h31]
  refine ⟨twoAtATime_accepting, ?_, ?_, ?_, ?_⟩
  · rw [hrun]
  · rw [hrun]
    rfl
  · rw [hrun]
    intro h
    have hlen := congrArg List.length h
    rw [List.flatten_cons, List.flatten_nil, List.append_nil, List.length_replicate] at hlen
    exact absurd hlen (by decide)
  · rw [hpanic]

/-- C1, as the code has it: for every sequence of chunks each shorter than
`2 ^ 31` bytes (empty chunks included) delivered to `writeCallback` and every
sink that never fails and accepts between 1 and all of the bytes offered, with
a step budget of at least the longest chunk every invocation returns Ok; the
ranges the sink accepted, concatenated in call order, are the chunks
concatenated in delivery order; chunk by chunk the accepted ranges make up
exactly that chunk, each write resumes where the previous one stopped, and an
empty chunk causes no sink call; and the calls logged are the calls the sink
received: run on its own over the slices logged, the sink gives the replies
logged and reaches the state the session ends with. -/
theorem writeCallback_forwards_chunks {σ : Type} (W : Writer σ) (hW : W.Accepting)
    (fuel : Nat) (chunks : List (List Byte)) (hsize : ∀ c ∈ chunks, c.length < 2 ^ 31)
    (hfuel : ∀ c ∈ chunks, c.length ≤ fuel) (g : Gifski σ) :
    (deliver W fuel g chunks).1.map Prod.fst = chunks.map (fun _ => Outcome.ret Ok) ∧
    acceptedBytes ((deliver W fuel g chunks).1.map Prod.snd).flatten = chunks.flatten ∧
    List.Forall₂
      (fun chunk r => acceptedBytes r.2 = chunk ∧ Resumes chunk 0 r.2 ∧ (chunk = [] → r.2 = []))
      chunks (deliver W fuel g chunks).1 ∧
    W.replay g.writer (((deliver W fuel g chunks).1.map Prod.snd).flatten.map WriteCall.p) =
      (((deliver W fuel g chunks).1.map Prod.snd).flatten.map WriteCall.reply,
        (deliver W fuel g chunks).2.writer) := by
  refine ⟨?_, ?_, ?_, deliver_replay W fuel chunks g⟩
  · induction chunks generalizing g with
    | nil => rfl
    | cons chunk rest ih =>
      have h := writeCallback_accepting W hW fuel g chunk
        (hsize chunk (List.mem_cons_self _ _)) (hfuel chunk (List.mem_cons_self _ _))
      simp only [deliver, List.map_cons, h.1,
        ih (fun c hc => hsize c (List.mem_cons_of_mem _ hc))
          (fun c hc => hfuel c (List.mem_cons_of_mem _ hc))]
  · induction chunks generalizing g with
    | nil => rfl
    | cons chunk rest ih =>
      have h := writeCallback_accepting W hW fuel g chunk
        (hsize chunk (List.mem_cons_self _ _)) (hfuel chunk (List.mem_cons_self _ _))
      simp only [deliver, List.map_cons, List.flatten_cons, acceptedBytes_append, h.2.1,
        ih (fun c hc => hsize c (List.mem_cons_of_mem _ hc))
          (fun c hc => hfuel c (List.mem_cons_of_mem _ hc))]
  · induction chunks generalizing g with
    | nil => exact List.Forall₂.nil
    | cons chunk rest ih =>
      have h := writeCallback_accepting W hW fuel g chunk
        (hsize chunk (List.mem_cons_self _ _)) (hfuel chunk (List.mem_cons_self _ _))
      simp only [deliver]
      exact List.Forall₂.cons ⟨h.2.1, h.2.2.1, h.2.2.2⟩
        (ih (fun c hc => hsize c (List.mem_cons_of_mem _ hc))
          (fun c hc => hfuel c (List.mem_cons_of_mem _ hc)) _)

/-- C1 at a concrete input: the chunks 1 2 3, empty, 4 delivered to a sink that
takes two bytes a call and records them. -/
theorem writeCallback_forwards_chunks_witness :
    twoAtATime.Accepting ∧
    (∀ c ∈ ([[1, 2, 3], [], [4]] : List (List Byte)), c.length < 2 ^ 31) ∧
    (∀ c ∈ ([[1, 2, 3], [], [4]] : List (List Byte)), c.length ≤ 3) ∧
    ((deliver twoAtATime 3 (sessionOf []) [[1, 2, 3], [], [4]]).1.map Prod.fst =
        ([[1, 2, 3], [], [4]] : List (List Byte)).map (fun _ => Outcome.ret Ok) ∧
      acceptedBytes
          ((deliver twoAtATime 3 (sessionOf []) [[1, 2, 3], [], [4]]).1.map Prod.snd).flatten =
        ([[1, 2, 3], [], [4]] : List (List Byte)).flatten ∧
      List.Forall₂
        (fun chunk r =>
          acceptedBytes r.2 = chunk ∧ Resumes chunk 0 r.2 ∧ (chunk = [] → r.2 = []))
        [[1, 2, 3], [], [4]] (deliver twoAtATime 3 (sessionOf []) [[1, 2, 3], [], [4]]).1 ∧
      twoAtATime.replay (sessionOf ([] : List Byte)).writer
          (((deliver twoAtATime 3 (sessionOf []) [[1, 2, 3], [], [4]]).1.map
            Prod.snd).flatten.map WriteCall.p) =
        (((deliver twoAtATime 3 (sessionOf []) [[1, 2, 3], [], [4]]).1.map
            Prod.snd).flatten.map WriteCall.reply,
          (deliver twoAtATime 3 (sessionOf []) [[1, 2, 3], [], [4]]).2.writer)) :=
  ⟨twoAtATime_accepting, by decide, by decide,
    writeCallback_forwards_chunks twoAtATime twoAtATime_accepting 3 [[1, 2, 3], [], [4]]
      (by decide) (by decide) (sessionOf [])⟩

/-- C2: for every C `int` length and buffer handed to `writeCallback` and every
sink, if a `Write` call made by `writeCallback` returned an error, whatever
count came with it, then that call is the last one made for the chunk and
`writeCallback` returns Other (15), not Ok. -/
theorem writeCallback_error_returns_Other {σ : Type} (W : Writer σ) (fuel : Nat) (g : Gifski σ)
    (bufferLength : Int) (chunk : List Byte) (before after : List WriteCall) (c : WriteCall)
    (hcalls : (writeCallback W fuel g bufferLength chunk).2.2 = before ++ c :: after)
    (herr : c.err = true) :
    after = [] ∧ (writeCallback W fuel g bufferLength chunk).1 = Outcome.ret 15 ∧
      (writeCallback W fuel g bufferLength chunk).1 = Outcome.ret Other ∧
      (writeCallback W fuel g bufferLength chunk).1 ≠ Outcome.ret Ok := by
  by_cases h0 : bufferLength = 0
  · rw [writeCallback_skip W fuel g bufferLength chunk h0] at hcalls
    simp at hcalls
  · cases hG : GoBytes chunk bufferLength with
    | none =>
      rw [writeCallback_panics W fuel g bufferLength chunk h0 hG] at hcalls
      simp at hcalls
    | some data =>
      rw [writeCallback_loops W fuel g bufferLength chunk data h0 hG] at hcalls ⊢
      obtain ⟨h1, h2⟩ := writeLoop_error_last W data fuel 0 g.writer before after c hcalls herr
      refine ⟨h1, ?_, h2, ?_⟩
      · rw [h2]
        rfl
      · rw [h2]
        intro h
        have h15 : Other = Ok := by
          injection h
        simp [Other, Ok] at h15

/-- C2 at a concrete input: a three-byte chunk and a sink that accepts one byte
and then fails. -/
theorem writeCallback_error_returns_Other_witness :
    (writeCallback failsSecond 3 (sessionOf 0) (cInt 3) [1, 2, 3]).2.2 =
        [⟨0, [1, 2, 3], 1, false⟩] ++ (⟨1, [2, 3], 1, true⟩ : WriteCall) :: [] ∧
    (⟨1, [2, 3], 1, true⟩ : WriteCall).err = true ∧
    (([] : List WriteCall) = [] ∧
      (writeCallback failsSecond 3 (sessionOf 0) (cInt 3) [1, 2, 3]).1 = Outcome.ret 15 ∧
      (writeCallback failsSecond 3 (sessionOf 0) (cInt 3) [1, 2, 3]).1 = Outcome.ret Other ∧
      (writeCallback failsSecond 3 (sessionOf 0) (cInt 3) [1, 2, 3]).1 ≠ Outcome.ret Ok) :=
  ⟨by decide, rfl,
    writeCallback_error_returns_Other failsSecond 3 (sessionOf 0) (cInt 3) [1, 2, 3]
      [⟨0, [1, 2, 3], 1, false⟩] [] ⟨1, [2, 3], 1, true⟩ (by decide) rfl⟩

/-- C10: for every non-empty chunk of length L handed over by the engine and
every sink whose calls either return an error or report a count between 1 and
the number of bytes offered, with a step budget of L the write loop of
`writeCallback` ends within the budget after at most L sink calls: the callback
returns Ok or Other, or `C.GoBytes` panicked on a negative length before the
loop and no call was made.  Every call is made at an offset `bytesWritten`
with `0 ≤ bytesWritten < len(data) ≤ L`, offers the in-bounds slice
`data[bytesWritten:]` of the slice `data` copied from the chunk, and leaves
`bytesWritten` at most `len(data)`, hence at most L; the calls logged are the
calls the sink received.  For L below `2 ^ 31`, `data` is the chunk and the
callback returns Ok or Other. -/
theorem writeCallback_terminates_in_bounds {σ : Type} (W : Writer σ) (hW : W.ErrOrProgress)
    (fuel : Nat) (g : Gifski σ) (chunk : List Byte) (hne : chunk ≠ [])
    (hfuel : chunk.length ≤ fuel) :
    ((writeCallback W fuel g (cInt chunk.length) chunk).1 = Outcome.ret Ok ∨
      (writeCallback W fuel g (cInt chunk.length) chunk).1 = Outcome.ret Other ∨
      ((writeCallback W fuel g (cInt chunk.length) chunk).1 = Outcome.panic ∧
        cInt chunk.length < 0 ∧
        (writeCallback W fuel g (cInt chunk.length) chunk).2.2 = [])) ∧
    (writeCallback W fuel g (cInt chunk.length) chunk).2.2.length ≤ chunk.length ∧
    (copied chunk).length ≤ chunk.length ∧
    (∀ c ∈ (writeCallback W fuel g (cInt chunk.length) chunk).2.2,
      0 ≤ c.offset ∧ c.offset < ((copied chunk).length : Int) ∧
      c.offset < (chunk.length : Int) ∧
      c.p = (copied chunk).drop c.offset.toNat ∧
      (c.err = false → c.offset + c.n ≤ ((copied chunk).length : Int) ∧
        c.offset + c.n ≤ (chunk.length : Int))) ∧
    W.replay g.writer
        ((writeCallback W fuel g (cInt chunk.length) chunk).2.2.map WriteCall.p) =
      ((writeCallback W fuel g (cInt chunk.length) chunk).2.2.map WriteCall.reply,
        (writeCallback W fuel g (cInt chunk.length) chunk).2.1.writer) ∧
    (chunk.length < 2 ^ 31 →
      copied chunk = chunk ∧
      ((writeCallback W fuel g (cInt chunk.length) chunk).1 = Outcome.ret Ok ∨
        (writeCallback W fuel g (cInt chunk.length) chunk).1 = Outcome.ret Other)) := by
  have hcl : (copied chunk).length ≤ chunk.length := by
    rw [copied_length]
    exact cInt_toNat_le _
  have hreplay := writeCallback_replay W fuel g (cInt chunk.length) chunk
  have hpos : 0 < chunk.length := List.length_pos.mpr hne
  rcases lt_trichotomy (cInt chunk.length) 0 with hneg | hzero | hgt
  · have hrun := writeCallback_negative W fuel g chunk hneg
    refine ⟨?_, ?_, hcl, ?_, hreplay, ?_⟩
    · rw [hrun]
      exact Or.inr (Or.inr ⟨rfl, hneg, rfl⟩)
    · rw [hrun]
      simp
    · rw [hrun]
      intro c hc
      simp at hc
    · intro hlt
      have := cInt_of_lt _ hlt
      omega
  · have hrun := writeCallback_zero W fuel g chunk hzero
    refine ⟨?_, ?_, hcl, ?_, hreplay, ?_⟩
    · rw [hrun]
      exact Or.inl rfl
    · rw [hrun]
      simp
    · rw [hrun]
      intro c hc
      simp at hc
    · intro hlt
      have := cInt_of_lt _ hlt
      omega
  · have hrun := writeCallback_positive W fuel g chunk hgt
    obtain ⟨b1, b2, b3⟩ := writeLoop_bounded W hW (copied chunk) fuel 0 g.writer
      (Nat.zero_le _) (by omega)
    have b1w : (writeLoop W (copied chunk) fuel 0 g.writer).1 = Outcome.ret Ok ∨
        (writeLoop W (copied chunk) fuel 0 g.writer).1 = Outcome.ret Other := by
      simpa using b1
    refine ⟨?_, ?_, hcl, ?_, hreplay, ?_⟩
    · rw [hrun]
      rcases b1w with h | h
      · exact Or.inl h
      · exact Or.inr (Or.inl h)
    · rw [hrun]
      have : (writeLoop W (copied chunk) fuel 0 g.writer).2.2.length ≤ (copied chunk).length := by
        simpa using b2
      show (writeLoop W (copied chunk) fuel 0 g.writer).2.2.length ≤ chunk.length
      omega
    · rw [hrun]
      intro c hc
      obtain ⟨j1, j2, j3, j4⟩ := b3 c (by simpa using hc)
      refine ⟨by simpa using j1, j2, by omega, j3, ?_⟩
      intro he
      have := j4 he
      exact ⟨this, by omega⟩
    · intro hlt
      refine ⟨copied_of_lt chunk hlt, ?_⟩
      rw [hrun]
      exact b1w

/-- C10 at a concrete input: a three-byte chunk and a sink that accepts one byte
and then fails. -/
theorem writeCallback_terminates_in_bounds_witness :
    failsSecond.ErrOrProgress ∧ ([1, 2, 3] : List Byte) ≠ [] ∧
    ([1, 2, 3] : List Byte).length ≤ 3 ∧
    (((writeCallback failsSecond 3 (sessionOf 0) (cInt ([1, 2, 3] : List Byte).length)
          [1, 2, 3]).1 = Outcome.ret Ok ∨
        (writeCallback failsSecond 3 (sessionOf 0) (cInt ([1, 2, 3] : List Byte).length)
          [1, 2, 3]).1 = Outcome.ret Other ∨
        ((writeCallback failsSecond 3 (sessionOf 0) (cInt ([1, 2, 3] : List Byte).length)
            [1, 2, 3]).1 = Outcome.panic ∧
          cInt ([1, 2, 3] : List Byte).length < 0 ∧
          (writeCallback failsSecond 3 (sessionOf 0) (cInt ([1, 2, 3] : List Byte).length)
            [1, 2, 3]).2.2 = [])) ∧
      (writeCallback failsSecond 3 (sessionOf 0) (cInt ([1, 2, 3] : List Byte).length)
        [1, 2, 3]).2.2.length ≤ ([1, 2, 3] : List Byte).length ∧
      (copied ([1, 2, 3] : List Byte)).length ≤ ([1, 2, 3] : List Byte).length ∧
      (∀ c ∈ (writeCallback failsSecond 3 (sessionOf 0) (cInt ([1, 2, 3] : List Byte).length)
          [1, 2, 3]).2.2,
        0 ≤ c.offset ∧ c.offset < ((copied ([1, 2, 3] : List Byte)).length : Int) ∧
        c.offset < (([1, 2, 3] : List Byte).length : Int) ∧
        c.p = (copied ([1, 2, 3] : List Byte)).drop c.offset.toNat ∧
        (c.err = false → c.offset + c.n ≤ ((copied ([1, 2, 3] : List Byte)).length : Int) ∧
          c.offset + c.n ≤ (([1, 2, 3] : List Byte).length : Int))) ∧
      failsSecond.replay (sessionOf 0).writer
          ((writeCallback failsSecond 3 (sessionOf 0) (cInt ([1, 2, 3] : List Byte).length)
            [1, 2, 3]).2.2.map WriteCall.p) =
        ((writeCallback failsSecond 3 (sessionOf 0) (cInt ([1, 2, 3] : List Byte).length)
            [1, 2, 3]).2.2.map WriteCall.reply,
          (writeCallback failsSecond 3 (sessionOf 0) (cInt ([1, 2, 3] : List Byte).length)
            [1, 2, 3]).2.1.writer) ∧
      (([1, 2, 3] : List Byte).length < 2 ^ 31 →
        copied ([1, 2, 3] : List Byte) = [1, 2, 3] ∧
        ((writeCallback failsSecond 3 (sessionOf 0) (cInt ([1, 2, 3] : List Byte).length)
            [1, 2, 3]).1 = Outcome.ret Ok ∨
          (writeCallback failsSecond 3 (sessionOf 0) (cInt ([1, 2, 3] : List Byte).length)
            [1, 2, 3]).1 = Outcome.ret Other))) :=
  ⟨failsSecond_errOrProgress, by decide, by decide,
    writeCallback_terminates_in_bounds failsSecond failsSecond_errOrProgress 3 (sessionOf 0)
      [1, 2, 3] (by decide) (by decide)⟩

/-! ## Sessions: helper facts -/

/-- A session returned by `NewGifski` is the one built from the handle and the
token the collaborators replied with, with a fresh open channel and counter 0. -/
theorem NewGifski_session {σ : Type} (settings : Settings) (writer : σ) (native : NativeOpen)
    (g : Gifski σ) (h : (NewGifski settings writer native).1 = (some g, none)) :
    ∃ handle, native.handle = some handle ∧
      g = { handle := handle, ptr := native.ptr, writer := writer,
            progress := some ⟨false, []⟩, frameNumber := 0 } := by
  unfold NewGifski at h
  cases hh : native.handle with
  | none => simp [hh] at h
  | some handle =>
    simp only [hh] at h
    split at h
    · simp at h
    · split at h <;>
        · simp only [Prod.mk.injEq, Option.some.injEq, and_true] at h
          exact ⟨handle, rfl, h.symm⟩

/-- A session returned by `NewGifski` is active. -/
theorem NewGifski_active {σ : Type} (settings : Settings) (writer : σ) (native : NativeOpen)
    (g : Gifski σ) (h : (NewGifski settings writer native).1 = (some g, none)) : Active g := by
  obtain ⟨handle, _, hg⟩ := NewGifski_session settings writer native g h
  subst hg
  exact ⟨⟨false, []⟩, rfl, rfl⟩

/-- The write callback leaves a session active. -/
theorem writeCallback_active {σ : Type} (W : Writer σ) (fuel : Nat) (g : Gifski σ)
    (bufferLength : Int) (buffer : List Byte) (hg : Active g) :
    Active (writeCallback W fuel g bufferLength buffer).2.1 := by
  unfold writeCallback
  split
  · split
    · exact hg
    · exact hg
  · exact hg

/-- The progress callback leaves a session active. -/
theorem progressCallback_active {σ : Type} (bits : Nat) (g : Gifski σ) (reader : Bool)
    (hg : Active g) : Active (progressCallback bits g reader).2 := by
  obtain ⟨ch, h1, h2⟩ := hg
  cases reader with
  | false =>
    simp only [progressCallback, h1, h2, Bool.false_eq_true, if_false]
    exact ⟨ch, h1, h2⟩
  | true =>
    simp only [progressCallback, h1, h2, Bool.false_eq_true, if_false, if_true]
    exact ⟨_, rfl, rfl⟩

/-- Repeated progress callbacks on an open channel: every invocation returns 1,
the values received are the counter values in order, each the previous plus
one modulo `2 ^ bits`, and nothing else in the session changes. -/
theorem progressCallbacks_run {σ : Type} (bits : Nat) :
    ∀ (k : Nat) (g : Gifski σ) (ch : Chan) (n : Nat),
      g.progress = some ch → ch.closed = false → g.frameNumber = n % 2 ^ bits →
      (progressCallbacks bits k g).1 = List.replicate k (Outcome.ret 1) ∧
      (progressCallbacks bits k g).2.progress =
        some ⟨false, ch.received ++ (List.range k).map (fun i => (n + i) % 2 ^ bits)⟩ ∧
      (progressCallbacks bits k g).2.frameNumber = (n + k) % 2 ^ bits := by
  intro k
  induction k with
  | zero =>
    intro g ch n h1 h2 h3
    refine ⟨rfl, ?_, ?_⟩
    · simp only [progressCallbacks, h1, List.range_zero, List.map_nil, List.append_nil]
      cases ch
      simp_all
    · simpa [progressCallbacks] using h3
  | succ k ih =>
    intro g ch n h1 h2 h3
    have hstep : progressCallback bits g true =
        (Outcome.ret 1,
          { g with
            progress := some { ch with received := ch.received ++ [g.frameNumber] },
            frameNumber := (g.frameNumber + 1) % 2 ^ bits }) := by
      simp [progressCallback, h1, h2]
    obtain ⟨i1, i2, i3⟩ := ih (progressCallback bits g true).2
      { ch with received := ch.received ++ [g.frameNumber] } (n + 1)
      (by rw [hstep]) h2 (by rw [hstep, h3]; simp [Nat.add_mod])
    refine ⟨?_, ?_, ?_⟩
    · simp only [progressCallbacks, i1, List.replicate_succ]
      rw [hstep]
    · simp only [progressCallbacks, i2, List.range_succ_eq_map, List.map_cons, List.map_map,
        h3, Nat.add_zero, List.append_assoc, List.singleton_append]
      congr 4
      apply List.map_congr_left
      intro i _
      simp only [Function.comp, Nat.succ_eq_add_one]
      congr 1
      omega
    · simp only [progressCallbacks, i3]
      congr 1
      omega

/-- The concrete open used below: `NewGifski` returns `openedSession`, with or
without progress reports. -/
theorem NewGifski_opened (settings : Settings) :
    (NewGifski settings () nativeOk).1 = (some openedSession, none) := by
  cases h : settings.ReportProgress <;> simp [NewGifski, nativeOk, openedSession, Ok, h]

/-! ## Claims on the progress callback -/

/-- C3, as the code has it: for every session opened by `NewGifski`, every width
`bits` of Go's `uint` and every k, k invocations of `progressCallback`, each
consumed by a reader, all return 1 (continue), publish the values
`i mod 2 ^ bits` for i = 0, ..., k-1 in that order and leave the counter at
`k mod 2 ^ bits`; so for k up to `2 ^ bits` the values are exactly 0, ..., k-1
in that order, and for k below `2 ^ bits` the counter equals k.  No argument of
`AddFrame` enters the callback. -/
theorem progressCallback_counts_calls {σ : Type} (settings : Settings) (writer : σ)
    (native : NativeOpen) (g : Gifski σ)
    (hopen : (NewGifski settings writer native).1 = (some g, none)) (bits k : Nat) :
    (progressCallbacks bits k g).1 = List.replicate k (Outcome.ret 1) ∧
    Progress (progressCallbacks bits k g).2 =
      some ⟨false, (List.range k).map (fun i => i % 2 ^ bits)⟩ ∧
    (progressCallbacks bits k g).2.frameNumber = k % 2 ^ bits ∧
    (k ≤ 2 ^ bits → Progress (progressCallbacks bits k g).2 = some ⟨false, List.range k⟩) ∧
    (k < 2 ^ bits → (progressCallbacks bits k g).2.frameNumber = k) := by
  obtain ⟨handle, _, hg⟩ := NewGifski_session settings writer native g hopen
  have hrun := progressCallbacks_run bits k g ⟨false, []⟩ 0 (by rw [hg]) rfl
    (by rw [hg]; simp)
  obtain ⟨h1, h2, h3⟩ := hrun
  simp only [List.nil_append, Nat.zero_add] at h2 h3
  refine ⟨h1, h2, h3, ?_, ?_⟩
  · intro hk
    rw [Progress, h2]
    congr 2
    have : ∀ i ∈ List.range k, i % 2 ^ bits = id i := by
      intro i hi
      have := List.mem_range.mp hi
      exact Nat.mod_eq_of_lt (by omega)
    rw [List.map_congr_left this, List.map_id]
  · intro hk
    rw [h3]
    exact Nat.mod_eq_of_lt hk

/-- C3 at a concrete input: three invocations on the session of the test, with a
64-bit `uint`. -/
theorem progressCallback_counts_calls_witness :
    (NewGifski testSettings () nativeOk).1 = (some openedSession, none) ∧
    ((progressCallbacks 64 3 openedSession).1 = List.replicate 3 (Outcome.ret 1) ∧
      Progress (progressCallbacks 64 3 openedSession).2 =
        some ⟨false, (List.range 3).map (fun i => i % 2 ^ 64)⟩ ∧
      (progressCallbacks 64 3 openedSession).2.frameNumber = 3 % 2 ^ 64 ∧
      (3 ≤ 2 ^ 64 →
        Progress (progressCallbacks 64 3 openedSession).2 = some ⟨false, List.range 3⟩) ∧
      (3 < 2 ^ 64 → (progressCallbacks 64 3 openedSession).2.frameNumber = 3)) :=
  ⟨NewGifski_opened testSettings,
    progressCallback_counts_calls testSettings () nativeOk openedSession
      (NewGifski_opened testSettings) 64 3⟩

/-- C3 as stated fails: on the session of the test with a 64-bit `uint`, after
`2 ^ 64` invocations the counter is 0, not `2 ^ 64`. -/
theorem progressCallback_counter_wraps :
    (NewGifski testSettings () nativeOk).1 = (some openedSession, none) ∧
    (progressCallbacks 64 (2 ^ 64) openedSession).2.frameNumber = 0 ∧
    (progressCallbacks 64 (2 ^ 64) openedSession).2.frameNumber ≠ 2 ^ 64 := by
  have h := (progressCallbacks_run 64 (2 ^ 64) openedSession ⟨false, []⟩ 0 rfl rfl rfl).2.2
  have h0 : (progressCallbacks 64 (2 ^ 64) openedSession).2.frameNumber = 0 := by
    rw [h, Nat.zero_add, Nat.mod_self]
  refine ⟨NewGifski_opened testSettings, h0, ?_⟩
  rw [h0]
  exact (Nat.pos_pow_of_pos 64 (by decide)).ne

/-! ## Claims on AddFrame and Finish -/

/-- C4: for every active session and every status c, when the engine is given a
frame (the pixel buffer is not empty) and replies c, `AddFrame` returns no
error if and only if c = 0 and otherwise returns the `Error` with Code c; and
when finalization replies c, `Finish` returns no error if and only if c = 0 and
otherwise returns the `Error` with Code c. -/
theorem status_becomes_error {σ : Type} (g : Gifski σ) (hg : Active g)
    (frameNumber width height : Nat) (pixels : List Byte) (timestamp : Nat)
    (hpixels : pixels ≠ []) (c : Int) :
    ((AddFrame g frameNumber width height pixels timestamp c).1 = Outcome.ret none ↔ c = Ok) ∧
    (c ≠ Ok → (AddFrame g frameNumber width height pixels timestamp c).1 =
      Outcome.ret (some (GoError.gifski ⟨c⟩))) ∧
    ((Finish g c).1 = Outcome.ret none ↔ c = Ok) ∧
    (c ≠ Ok → (Finish g c).1 = Outcome.ret (some (GoError.gifski ⟨c⟩))) := by
  obtain ⟨ch, h1, h2⟩ := hg
  cases pixels with
  | nil => exact absurd rfl hpixels
  | cons a t =>
    by_cases hc : c = Ok
    · simp [AddFrame, Finish, h1, h2, hc]
    · simp [AddFrame, Finish, h1, h2, hc]

/-- C4 at a concrete input: the session of the test, one pixel, status
InvalidInput. -/
theorem status_becomes_error_witness :
    Active openedSession ∧ ([0, 0, 0, 255] : List Byte) ≠ [] ∧
    (((AddFrame openedSession 0 1 1 [0, 0, 0, 255] 0 9).1 = Outcome.ret none ↔ (9 : Int) = Ok) ∧
      ((9 : Int) ≠ Ok → (AddFrame openedSession 0 1 1 [0, 0, 0, 255] 0 9).1 =
        Outcome.ret (some (GoError.gifski ⟨9⟩))) ∧
      ((Finish openedSession 9).1 = Outcome.ret none ↔ (9 : Int) = Ok) ∧
      ((9 : Int) ≠ Ok → (Finish openedSession 9).1 =
        Outcome.ret (some (GoError.gifski ⟨9⟩)))) :=
  ⟨⟨⟨false, []⟩, rfl, rfl⟩, by decide,
    status_becomes_error openedSession ⟨⟨false, []⟩, rfl, rfl⟩ 0 1 1 [0, 0, 0, 255] 0
      (by decide) 9⟩

/-- C7: for every active session and every status c of the finalization, one
call to `Finish` makes exactly these calls, in this order: the native
finalization on the handle of the session, `close` on the progress channel,
`pointer.Unref` on the token of the session; so each happens exactly once, the
close after the finalization, whatever c is.  The channel was open before and
is closed afterwards, and `Finish` returns. -/
theorem Finish_tears_down_once {σ : Type} (g : Gifski σ) (hg : Active g) (c : Int) :
    (Finish g c).2.2 =
      [Event.gifskiFinish g.handle, Event.closeProgress, Event.pointerUnref g.ptr] ∧
    (Finish g c).2.2.countP Event.isFinish = 1 ∧
    (Finish g c).2.2.countP Event.isClose = 1 ∧
    (Finish g c).2.2.countP Event.isUnref = 1 ∧
    recv (Progress g) none = Recv.blocks ∧
    recv (Progress (Finish g c).2.1) none = Recv.endOfStream ∧
    (Finish g c).1 ≠ Outcome.panic ∧ (Finish g c).1 ≠ Outcome.noReturn := by
  obtain ⟨ch, h1, h2⟩ := hg
  by_cases hc : c = Ok
  · simp [Finish, Progress, recv, h1, h2, hc, Event.isFinish, Event.isClose, Event.isUnref]
  · simp [Finish, Progress, recv, h1, h2, hc, Event.isFinish, Event.isClose, Event.isUnref]

/-- C7 at a concrete input: the session of the test, finalization replying
Aborted. -/
theorem Finish_tears_down_once_witness :
    Active openedSession ∧
    ((Finish openedSession 14).2.2 =
        [Event.gifskiFinish openedSession.handle, Event.closeProgress,
          Event.pointerUnref openedSession.ptr] ∧
      (Finish openedSession 14).2.2.countP Event.isFinish = 1 ∧
      (Finish openedSession 14).2.2.countP Event.isClose = 1 ∧
      (Finish openedSession 14).2.2.countP Event.isUnref = 1 ∧
      recv (Progress openedSession) none = Recv.blocks ∧
      recv (Progress (Finish openedSession 14).2.1) none = Recv.endOfStream ∧
      (Finish openedSession 14).1 ≠ Outcome.panic ∧
      (Finish openedSession 14).1 ≠ Outcome.noReturn) :=
  ⟨⟨⟨false, []⟩, rfl, rfl⟩, Finish_tears_down_once openedSession ⟨⟨false, []⟩, rfl, rfl⟩ 14⟩

/-- C5 as stated fails: on the session of the test after a successful `Finish`,
`AddFrame` with a full 1x1 frame calls the engine on the finalized handle and,
the engine replying Ok, returns no error; a second `Finish` calls the native
finalization on the finalized handle, calls `close` on the closed channel and
`pointer.Unref` on the token again, and panics instead of returning an `Error`
with Code InvalidState. -/
theorem calls_after_Finish_not_rejected :
    (NewGifski testSettings () nativeOk).1 = (some openedSession, none) ∧
    (Finish openedSession Ok).1 = Outcome.ret none ∧
    AddFrame (Finish openedSession Ok).2.1 2 1 1 [0, 0, 0, 255] 0 Ok =
      (Outcome.ret none, [Event.addFrameRgba 7 2 1 1 [0, 0, 0, 255] 0]) ∧
    Finish (Finish openedSession Ok).2.1 InvalidState =
      (Outcome.panic, (Finish openedSession Ok).2.1,
        [Event.gifskiFinish 7, Event.closeProgress, Event.pointerUnref 1]) ∧
    (Finish (Finish openedSession Ok).2.1 InvalidState).1 ≠
      Outcome.ret (some (GoError.gifski ⟨InvalidState⟩)) := by
  refine ⟨NewGifski_opened testSettings, ?_, ?_, ?_, ?_⟩ <;> decide

/-- C5, as the code has it: the binding keeps no record that a session is
finished.  For every session that was active and on which `Finish` has returned
(the finalization replying c0), a further `AddFrame` with a non-empty buffer
calls the engine again on the same handle and returns what the engine replies:
no error if and only if the reply is 0, otherwise the `Error` with that Code,
so Code InvalidState exactly when the engine replies 2; and a further `Finish`
first calls the native finalization again on the same handle. -/
theorem calls_after_Finish_reach_engine {σ : Type} (g : Gifski σ) (hg : Active g) (c0 : Int) :
    (∀ (frameNumber width height : Nat) (pixels : List Byte) (timestamp : Nat) (c : Int),
      pixels ≠ [] →
      (AddFrame (Finish g c0).2.1 frameNumber width height pixels timestamp c).2 =
        [Event.addFrameRgba g.handle (frameNumber % 2 ^ 32) (width % 2 ^ 32) (height % 2 ^ 32)
          pixels timestamp] ∧
      ((AddFrame (Finish g c0).2.1 frameNumber width height pixels timestamp c).1 =
        Outcome.ret none ↔ c = Ok) ∧
      (c ≠ Ok → (AddFrame (Finish g c0).2.1 frameNumber width height pixels timestamp c).1 =
        Outcome.ret (some (GoError.gifski ⟨c⟩))) ∧
      ((AddFrame (Finish g c0).2.1 frameNumber width height pixels timestamp c).1 =
        Outcome.ret (some (GoError.gifski ⟨InvalidState⟩)) ↔ c = InvalidState)) ∧
    (∀ c : Int, (Finish (Finish g c0).2.1 c).2.2.head? = some (Event.gifskiFinish g.handle)) := by
  obtain ⟨ch, h1, h2⟩ := hg
  have hfin : (Finish g c0).2.1 = { g with progress := some { ch with closed := true } } := by
    simp [Finish, h1, h2]
  rw [hfin]
  constructor
  · intro frameNumber width height pixels timestamp c hp
    cases pixels with
    | nil => exact absurd rfl hp
    | cons a t =>
      by_cases hc : c = Ok
      · subst hc
        simp [AddFrame, Ok, InvalidState]
      · have hc0 : ¬ (c = 0) := hc
        simp only [AddFrame, hc, if_false, ne_eq, not_false_eq_true, forall_true_left,
          true_and, Outcome.ret.injEq, Option.some.injEq, GoError.gifski.injEq,
          Error.mk.injEq, reduceCtorEq, false_iff, and_true]
  · intro c
    simp [Finish]

/-- C5 at a concrete input: the session of the test, finished with Ok. -/
theorem calls_after_Finish_reach_engine_witness :
    Active openedSession ∧
    ((∀ (frameNumber width height : Nat) (pixels : List Byte) (timestamp : Nat) (c : Int),
      pixels ≠ [] →
      (AddFrame (Finish openedSession 0).2.1 frameNumber width height pixels timestamp c).2 =
        [Event.addFrameRgba openedSession.handle (frameNumber % 2 ^ 32) (width % 2 ^ 32)
          (height % 2 ^ 32) pixels timestamp] ∧
      ((AddFrame (Finish openedSession 0).2.1 frameNumber width height pixels timestamp c).1 =
        Outcome.ret none ↔ c = Ok) ∧
      (c ≠ Ok →
        (AddFrame (Finish openedSession 0).2.1 frameNumber width height pixels timestamp c).1 =
          Outcome.ret (some (GoError.gifski ⟨c⟩))) ∧
      ((AddFrame (Finish openedSession 0).2.1 frameNumber width height pixels timestamp c).1 =
        Outcome.ret (some (GoError.gifski ⟨InvalidState⟩)) ↔ c = InvalidState)) ∧
    (∀ c : Int, (Finish (Finish openedSession 0).2.1 c).2.2.head? =
      some (Event.gifskiFinish openedSession.handle))) :=
  ⟨⟨⟨false, []⟩, rfl, rfl⟩,
    calls_after_Finish_reach_engine openedSession ⟨⟨false, []⟩, rfl, rfl⟩ 0⟩

/-- C8 as stated fails: on the session of the test, `AddFrame` for a 1x1 frame
with a buffer of one byte instead of four passes the buffer to the engine and,
the engine replying Ok, returns no error; with the empty buffer it panics. -/
theorem AddFrame_accepts_short_buffer :
    ([255] : List Byte).length ≠ 1 * 1 * 4 ∧
    AddFrame openedSession 0 1 1 [255] 0 Ok =
      (Outcome.ret none, [Event.addFrameRgba 7 0 1 1 [255] 0]) ∧
    AddFrame openedSession 0 1 1 [] 0 Ok = (Outcome.panic, []) := by
  refine ⟨?_, ?_, ?_⟩ <;> decide

/-- C8, as the code has it: `AddFrame` compares the length of the buffer with
nothing.  For every call with a non-empty buffer, whatever its length is next
to `width * height * 4`, the one call made is the engine's frame submission
with that buffer, and `AddFrame` returns what the engine replies: no error for
0, the `Error` with Code c for any other c. -/
theorem AddFrame_forwards_any_buffer {σ : Type} (g : Gifski σ)
    (frameNumber width height : Nat) (pixels : List Byte) (timestamp : Nat) (c : Int)
    (hpixels : pixels ≠ []) :
    AddFrame g frameNumber width height pixels timestamp c =
      (if c = Ok then Outcome.ret none else Outcome.ret (some (GoError.gifski ⟨c⟩)),
        [Event.addFrameRgba g.handle (frameNumber % 2 ^ 32) (width % 2 ^ 32) (height % 2 ^ 32)
          pixels timestamp]) := by
  cases pixels with
  | nil => exact absurd rfl hpixels
  | cons a t => rfl

/-- C8 at a concrete input: a 2x2 frame with a buffer of five bytes. -/
theorem AddFrame_forwards_any_buffer_witness :
    ([1, 2, 3, 4, 5] : List Byte) ≠ [] ∧
    AddFrame openedSession 0 2 2 [1, 2, 3, 4, 5] 0 0 =
      (if (0 : Int) = Ok then Outcome.ret none else Outcome.ret (some (GoError.gifski ⟨0⟩)),
        [Event.addFrameRgba openedSession.handle (0 % 2 ^ 32) (2 % 2 ^ 32) (2 % 2 ^ 32)
          [1, 2, 3, 4, 5] 0]) :=
  ⟨by decide, AddFrame_forwards_any_buffer openedSession 0 2 2 [1, 2, 3, 4, 5] 0 0 (by decide)⟩

/-! ## Claims on NewGifski -/

/-- C6, the code at the failing input: the engine creates handle 7, refuses the
write callback with InvalidState (2) and replies Ok (0) to the clean-up
finalization.  `NewGifski` returns no session and an `Error` whose Code is 0,
the status of the finalization, not 2, the status of the registration. -/
theorem NewGifski_reports_cleanup_status :
    nativeRefuses.setWriteCallback = InvalidState ∧ nativeRefuses.finish = Ok ∧
    (NewGifski testSettings () nativeRefuses).1 = (none, some (GoError.gifski ⟨Ok⟩)) ∧
    (NewGifski testSettings () nativeRefuses).1 ≠
      (none, some (GoError.gifski ⟨InvalidState⟩)) ∧
    (NewGifski testSettings () nativeRefuses).2 =
      [Event.gifskiNew ⟨512, 384, 80, false, false⟩, Event.pointerSave 1,
        Event.setWriteCallback 7 1, Event.gifskiFinish 7, Event.closeProgress,
        Event.pointerUnref 1] := by
  refine ⟨?_, ?_, ?_, ?_, ?_⟩ <;> decide

/-- C9 as stated fails: the session of the test opened with ReportProgress =
false has an open channel, on which a read blocks instead of reporting end of
stream. -/
theorem quiet_session_channel_open :
    quietSettings.ReportProgress = false ∧
    (NewGifski quietSettings () nativeOk).1 = (some openedSession, none) ∧
    Progress openedSession = some ⟨false, []⟩ ∧
    recv (Progress openedSession) none = Recv.blocks ∧
    recv (Progress openedSession) none ≠ Recv.endOfStream := by
  refine ⟨rfl, NewGifski_opened quietSettings, ?_, ?_, ?_⟩ <;> decide

/-- C9, as the code has it: for every session opened by `NewGifski` with
ReportProgress = false, the channel returned by `Progress` is open and nothing
has been received from it; the progress callback was not registered with the
engine, so there is no sender, and a read on the channel blocks; once `Finish`
has run, whatever the finalization replies, a read reports end of stream.  No
read yields a progress value. -/
theorem quiet_session_read_waits_for_Finish {σ : Type} (settings : Settings) (writer : σ)
    (native : NativeOpen) (g : Gifski σ) (hquiet : settings.ReportProgress = false)
    (hopen : (NewGifski settings writer native).1 = (some g, none)) :
    Progress g = some ⟨false, []⟩ ∧
    (∀ handle ptr, Event.setProgressCallback handle ptr ∉ (NewGifski settings writer native).2) ∧
    recv (Progress g) none = Recv.blocks ∧
    (∀ c : Int, recv (Progress (Finish g c).2.1) none = Recv.endOfStream) ∧
    (∀ (c : Int) (v : Nat), recv (Progress g) none ≠ Recv.value v ∧
      recv (Progress (Finish g c).2.1) none ≠ Recv.value v) := by
  obtain ⟨handle, hh, hg⟩ := NewGifski_session settings writer native g hopen
  subst hg
  refine ⟨rfl, ?_, rfl, ?_, ?_⟩
  · intro h p
    by_cases hc : native.setWriteCallback = Ok
    · simp [NewGifski, hh, hquiet, hc]
    · simp [NewGifski, hh, hquiet, hc]
  · intro c
    simp [Finish, Progress, recv]
  · intro c v
    simp [Finish, Progress, recv]

/-- C9 at a concrete input: the session of the test opened without progress
reports. -/
theorem quiet_session_read_waits_for_Finish_witness :
    quietSettings.ReportProgress = false ∧
    (NewGifski quietSettings () nativeOk).1 = (some openedSession, none) ∧
    (Progress openedSession = some ⟨false, []⟩ ∧
      (∀ handle ptr,
        Event.setProgressCallback handle ptr ∉ (NewGifski quietSettings () nativeOk).2) ∧
      recv (Progress openedSession) none = Recv.blocks ∧
      (∀ c : Int, recv (Progress (Finish openedSession c).2.1) none = Recv.endOfStream) ∧
      (∀ (c : Int) (v : Nat), recv (Progress openedSession) none ≠ Recv.value v ∧
        recv (Progress (Finish openedSession c).2.1) none ≠ Recv.value v)) :=
  ⟨rfl, NewGifski_opened quietSettings,
    quiet_session_read_waits_for_Finish quietSettings () nativeOk openedSession rfl
      (NewGifski_opened quietSettings)⟩

end GoGifski
